import Mathlib

/-!
Verification of the MatchmakerExchange reference server against its
natural-language specification.

The Python sources are shallowly embedded: dictionaries become structures or
association lists, fallible code returns `Except PyErr`, the unbounded
recursion of the OBO ancestor traversal is instrumented with explicit fuel,
and the ElasticSearch store is modelled as an optional list of documents
(`none` models a missing index).
-/

/-- Python exception classes that the embedded code can raise. -/
inductive PyErr where
  | typeError
  | attributeError
  | keyError
  | nameError
  | exception
  deriving DecidableEq, Repr

/-- Truthiness of an optional Python string: `None` and the empty string are
falsy, every other string is truthy. -/
def pyTruthyStr : Option String → Bool
  | none => false
  | some s => !(s == "")

/-- A vocabulary term document as stored in the `vocabularies` index
(see mme_server/managers/vocabularies/parsers.py and its consumers). -/
structure VTerm where
  id : String
  name : List String := []
  synonym : List String := []
  alt_id : List String := []
  is_a : List String := []
  term_category : List String := []
  deriving DecidableEq, Repr

/-- Predicate for a vocabulary document matching a query id: the ElasticSearch
query `Q(term, id=id) | Q(term, alt_id=id)` of VocabularyManager.get_term
matches a document whose canonical id equals the query or whose `alt_id` list
contains it. -/
def vtermMatches (qid : String) (t : VTerm) : Bool :=
  t.id == qid || t.alt_id.contains qid

/-- Embedding of `VocabularyManager.get_term`
(mme_server/managers/vocabularies/__init__.py, lines 106-115).
The store is `none` when the index does not exist, in which case
`BaseManager.search` (managers/base.py, lines 53-59) raises an Exception.
Otherwise the hits are the matching documents; the term is returned when
there is exactly one hit, else the failure is logged and no value returned. -/
def get_term (idx : Option (List VTerm)) (qid : String) : Except PyErr (Option VTerm) :=
  match idx with
  | none => .error .exception
  | some docs =>
    let hits := docs.filter (vtermMatches qid)
    if hits.length == 1 then .ok hits.head? else .ok none

/-- Embedding of the score normalization of `MatchResult.from_index`
(mme_server/models.py, line 221): `score = 1 - 1 / (1 + float(hit.meta.score))`.
Rational arithmetic models the ideal real semantics of the formula. -/
def normalizeScore (r : ℚ) : ℚ :=
  1 - 1 / (1 + r)

/-- A dynamically typed string-or-string-list value: `Feature.__init__` and
`Gene.__init__` overwrite the string field `label` with the list-valued
`term['name']`, so the label slot can hold either shape. -/
inductive PyStrVal where
  | str (s : String)
  | strList (l : List String)
  deriving DecidableEq, Repr

/-- JSON data of one entry of `patient.features`
(mme_server/models.py, class Feature). Absent keys are `none`. -/
structure FeatureJson where
  id : String
  label : Option PyStrVal := none
  observed : Option String := none
  ageOfOnset : Option String := none
  deriving DecidableEq, Repr

/-- JSON data of a `gene` object inside a genomic feature
(mme_server/models.py, class Gene). -/
structure GeneJson where
  id : Option String := none
  label : Option PyStrVal := none
  deriving DecidableEq, Repr

/-- JSON data of one entry of `patient.genomicFeatures`
(mme_server/models.py, class GenomicFeature); `gene = none` models a missing
(or falsy) `gene` key. Variant, zygosity and type are carried opaquely and
never inspected by the normalization code, so they are omitted. -/
structure GenomicFeatureJson where
  gene : Option GeneJson := none
  deriving DecidableEq, Repr

/-- A normalized `Feature` object: its (mutated) JSON data plus the
`phenotypes` attribute holding the resolved term's `term_category`. -/
structure Feature where
  data : FeatureJson
  phenotypes : List String
  deriving DecidableEq, Repr

/-- Embedding of `Feature.__init__` (mme_server/models.py, lines 16-37).
The collaborator `vocab` is `backend.vocabularies.get_term` as consumed by the
model code: it yields the resolved term document or no value. An unresolved
primary term id leaves the data untouched and sets `phenotypes = []`; a
present but unresolved `ageOfOnset` term makes the Python code evaluate
`term['id']` on `None`, raising a TypeError. -/
def Feature.init (vocab : String → Option VTerm) (d0 : FeatureJson) :
    Except PyErr Feature :=
  -- Normalize phenotype term
  let step :=
    match vocab d0.id with
    | some t => ({ d0 with id := t.id, label := some (.strList t.name) }, t.term_category)
    | none => (d0, ([] : List String))
  let d1 := step.1
  -- Normalize age of onset
  let aoo : Except PyErr FeatureJson :=
    if pyTruthyStr d1.ageOfOnset then
      match vocab (d1.ageOfOnset.getD "") with
      | some t => .ok { d1 with ageOfOnset := some t.id }
      | none => .error .typeError
    else
      .ok d1
  match aoo with
  | .error e => .error e
  | .ok d2 =>
    -- Normalize observed
    let observed := d2.observed.getD "yes" == "yes"
    .ok { data := { d2 with observed := some (if observed then "yes" else "no") },
          phenotypes := step.2 }

/-- Embedding of `Feature.get_implied_terms` (mme_server/models.py, line 39). -/
def Feature.get_implied_terms (f : Feature) : List String :=
  f.phenotypes

/-- Embedding of `Feature.is_present` (mme_server/models.py, line 42). -/
def Feature.is_present (f : Feature) : Bool :=
  f.data.observed == some "yes"

/-- Embedding of `Feature.to_json` (mme_server/models.py, line 45). -/
def Feature.to_json (f : Feature) : FeatureJson :=
  f.data

/-- A normalized `Gene` object (mme_server/models.py, class Gene). -/
structure Gene where
  data : GeneJson
  deriving DecidableEq, Repr

/-- Embedding of `Gene.__init__` (mme_server/models.py, lines 50-59): a truthy
gene id is looked up in the vocabularies; on success id and label are
rewritten, otherwise the data is left as given. -/
def Gene.init (vocab : String → Option VTerm) (d0 : GeneJson) : Gene :=
  if pyTruthyStr d0.id then
    match vocab (d0.id.getD "") with
    | some t => ⟨{ d0 with id := some t.id, label := some (.strList t.name) }⟩
    | none => ⟨d0⟩
  else
    ⟨d0⟩

/-- Embedding of `Gene.get_id` (mme_server/models.py, line 61). -/
def Gene.get_id (g : Gene) : Option String :=
  g.data.id

/-- A normalized `GenomicFeature` object. The `gene` component is `none`
exactly when `GenomicFeature.__init__` never assigned the `self.gene`
attribute (the input had no truthy `gene` value). -/
structure GenomicFeature where
  data : GenomicFeatureJson
  gene : Option Gene
  deriving DecidableEq, Repr

/-- Embedding of `GenomicFeature.__init__` (mme_server/models.py, lines 69-76):
`self.gene` is assigned only when the input carries a truthy `gene` object. -/
def GenomicFeature.init (vocab : String → Option VTerm) (d0 : GenomicFeatureJson) :
    GenomicFeature :=
  match d0.gene with
  | some gj =>
    let g := Gene.init vocab gj
    { data := { d0 with gene := some g.data }, gene := some g }
  | none => { data := d0, gene := none }

/-- Embedding of `GenomicFeature.get_gene_id` (mme_server/models.py, lines
80-82): reading `self.gene` raises AttributeError when `__init__` never
assigned it; an assigned `Gene` instance is always truthy, so its id (possibly
`None`) is returned. -/
def GenomicFeature.get_gene_id (gf : GenomicFeature) : Except PyErr (Option String) :=
  match gf.gene with
  | none => .error .attributeError
  | some g => .ok g.get_id

/-- Embedding of `GenomicFeature.to_json` (mme_server/models.py, line 84). -/
def GenomicFeature.to_json (gf : GenomicFeature) : GenomicFeatureJson :=
  gf.data

/-- JSON data of a patient submission (mme_server/models.py, class Patient).
Fields the normalization never inspects (contact, disorders, ...) are carried
by the record identity and omitted here; absent `features`/`genomicFeatures`
keys behave as empty lists via `data.get(..., [])`. -/
structure PatientJson where
  id : Option String := none
  features : List FeatureJson := []
  genomicFeatures : List GenomicFeatureJson := []
  test : Option Bool := none
  deriving DecidableEq, Repr

/-- A normalized `Patient` object: the derived phenotype closure set, the
candidate gene set and the canonical API representation. -/
structure Patient where
  phenotypes : Finset String := ∅
  genes : Finset String := ∅
  data : PatientJson := {}
  deriving DecidableEq

/-- Normalization loop over the raw feature list of `Patient.from_api`
(mme_server/models.py, lines 113-119): each entry is normalized in order and
the first raised exception aborts the whole construction. -/
def normFeatures (vocab : String → Option VTerm) :
    List FeatureJson → Except PyErr (List Feature)
  | [] => .ok []
  | fj :: rest =>
    match Feature.init vocab fj with
    | .error e => .error e
    | .ok f =>
      match normFeatures vocab rest with
      | .error e => .error e
      | .ok fs => .ok (f :: fs)

/-- Accumulation of `phenotypes.update(feature.get_implied_terms())` over the
normalized features, taken only from features where `is_present()` holds
(mme_server/models.py, lines 115-117). -/
def impliedPhenotypes : List Feature → Finset String
  | [] => ∅
  | f :: fs =>
    (if f.is_present then f.get_implied_terms.toFinset else ∅) ∪ impliedPhenotypes fs

/-- Accumulation of `genes.add(gene)` over the normalized genomic features
(mme_server/models.py, lines 125-131): `get_gene_id` may raise, and only a
truthy id is added to the set. -/
def collectGenes : List GenomicFeature → Except PyErr (Finset String)
  | [] => .ok ∅
  | gf :: rest =>
    match gf.get_gene_id with
    | .error e => .error e
    | .ok gid =>
      match collectGenes rest with
      | .error e => .error e
      | .ok s => .ok ((if pyTruthyStr gid then {gid.getD ""} else ∅) ∪ s)

/-- Embedding of `Patient.from_api` (mme_server/models.py, lines 106-138). -/
def Patient.from_api (vocab : String → Option VTerm) (data0 : PatientJson) :
    Except PyErr Patient :=
  match normFeatures vocab data0.features with
  | .error e => .error e
  | .ok fs =>
    let gfs := data0.genomicFeatures.map (GenomicFeature.init vocab)
    match collectGenes gfs with
    | .error e => .error e
    | .ok genes =>
      .ok { phenotypes := impliedPhenotypes fs,
            genes := genes,
            data := { data0 with
                      features := fs.map Feature.to_json,
                      genomicFeatures := gfs.map GenomicFeature.to_json,
                      test := some (data0.test.getD false) } }

/-- The persisted index form of a patient
(mme_server/models.py, lines 155-161 and managers/patients.py). -/
structure IndexDoc where
  phenotype : List String
  gene : List String
  doc : PatientJson
  deriving DecidableEq

/-- Embedding of `Patient.to_index` (mme_server/models.py, lines 155-161):
the derived sets are serialized as sorted lists alongside the canonical data. -/
def Patient.to_index (p : Patient) : IndexDoc :=
  { phenotype := p.phenotypes.sort (· ≤ ·),
    gene := p.genes.sort (· ≤ ·),
    doc := p.data }

/-- Embedding of `Patient.from_index` (mme_server/models.py, lines 140-147):
the derived sets are rebuilt as sets of the persisted lists. -/
def Patient.from_index (hit : IndexDoc) : Patient :=
  { phenotypes := hit.phenotype.toFinset,
    genes := hit.gene.toFinset,
    data := hit.doc }

/-- The per-stanza tag values that `OBOParser.documents` extracts from one
parsed OBO stanza (mme_server/managers/vocabularies/parsers.py, lines 36-42). -/
structure Stanza where
  id : String
  name : List String := []
  alt_id : List String := []
  synonym : List String := []
  is_a : List String := []
  is_obsolete : List String := []
  deriving DecidableEq, Repr

/-- An ontology term record as built by `OBOParser.documents`
(mme_server/managers/vocabularies/parsers.py, lines 47-54). The
`term_category` field holds the ancestor closure as a set; the Python code
serializes it as `list(get_ancestors(id))` in arbitrary set order. -/
structure Term where
  id : String
  name : List String := []
  synonym : List String := []
  alt_id : List String := []
  is_a : List String := []
  term_category : Finset String := ∅
  deriving DecidableEq

/-- Python dict lookup over an association list. -/
def dictLookup (m : List (String × Term)) (k : String) : Option Term :=
  (m.find? (fun kv => kv.1 == k)).map (fun kv => kv.2)

/-- Python dict assignment `m[k] = v` over an association list: the first
binding of `k` is overwritten in place, otherwise the binding is appended. -/
def dictInsert (m : List (String × Term)) (k : String) (v : Term) :
    List (String × Term) :=
  if m.any (fun kv => kv.1 == k) then
    m.map (fun kv => if kv.1 == k then (k, v) else kv)
  else
    m ++ [(k, v)]

/-- Embedding of the first loop of `OBOParser.documents`
(mme_server/managers/vocabularies/parsers.py, lines 36-54): every stanza is
entered into the `terms` dict keyed by its id, except that a stanza whose
`is_obsolete` values contain the string `true` is skipped. -/
def buildTerms (stanzas : List Stanza) : List (String × Term) :=
  stanzas.foldl
    (fun terms st =>
      if !st.is_obsolete.isEmpty && st.is_obsolete.contains "true" then
        terms
      else
        dictInsert terms st.id
          { id := st.id, name := st.name, synonym := st.synonym,
            alt_id := st.alt_id, is_a := st.is_a, term_category := ∅ })
    []

/-- One step of the parent loop of `get_ancestors`: the recursive calls are
threaded through the mutable `ancestors` set in list order, and any raised
exception (modelled as `none`) aborts the loop. -/
def foldAncestors (g : String → Finset String → Option (Finset String)) :
    List String → Finset String → Option (Finset String)
  | [], anc => some anc
  | p :: ps, anc =>
    match g p anc with
    | none => none
    | some anc2 => foldAncestors g ps anc2

/-- Embedding of the inner `get_ancestors` of `OBOParser.documents`
(mme_server/managers/vocabularies/parsers.py, lines 57-63):

```text
def get_ancestors(node_id, ancestors=None):
    if ancestors is None: ancestors = set()
    ancestors.add(node_id)
    for parent_id in terms[node_id].is_a:
        get_ancestors(parent_id, ancestors)
    return ancestors
```

The Python recursion carries no termination guard (the visited set is grown
but never consulted before recursing), so the embedding instruments it with
explicit fuel: `none` means the recursion either exceeded the fuel bound or
hit a KeyError on a parent id absent from `terms`. -/
def get_ancestors (terms : List (String × Term)) :
    Nat → String → Finset String → Option (Finset String)
  | 0, _, _ => none
  | fuel + 1, node_id, ancestors =>
    match dictLookup terms node_id with
    | none => none
    | some t => foldAncestors (get_ancestors terms fuel) t.is_a (insert node_id ancestors)

/-- The per-term completion loop of `OBOParser.documents`
(mme_server/managers/vocabularies/parsers.py, lines 65-69): each stored term
is yielded with `term_category` set to its computed ancestor set. -/
def mapDocs (g : String → Option (Finset String)) :
    List (String × Term) → Option (List Term)
  | [] => some []
  | kv :: rest =>
    match g kv.1 with
    | none => none
    | some s =>
      match mapDocs g rest with
      | none => none
      | some out => some ({ kv.2 with term_category := s } :: out)

/-- Embedding of the whole `OBOParser.documents` generator
(mme_server/managers/vocabularies/parsers.py, lines 27-69), with the explicit
fuel bound on the ancestor recursion. -/
def documents (stanzas : List Stanza) (fuel : Nat) : Option (List Term) :=
  let terms := buildTerms stanzas
  mapDocs (fun id => get_ancestors terms fuel id ∅) terms

/-- Reachability along `is_a` edges of the term dict: `ReachesTerm terms a b`
holds when `b` is `a` itself or an iterated parent of `a`. This is the
mathematical ancestor-closure relation the traversal is meant to compute. -/
inductive ReachesTerm (terms : List (String × Term)) : String → String → Prop
  | refl (a : String) : ReachesTerm terms a a
  | step (a p b : String) (t : Term) :
      dictLookup terms a = some t → p ∈ t.is_a →
      ReachesTerm terms p b → ReachesTerm terms a b

/-- A trust entry document of the `servers` index in the revision that stores
the traffic direction as a field (mme_server/auth.py and
mme_server/datastore.py, `ServerManager`). -/
structure ServerEntry where
  server_id : String
  server_label : String := ""
  server_key : String
  direction : String
  base_url : Option String := none
  deriving DecidableEq, Repr

/-- A trust entry document of the `servers` index in the revision that encodes
the traffic direction as the document type
(mme_server/managers/servers.py, `ServerManager`): doc_type `client` holds
inbound entries and doc_type `server` outbound ones. The stored `base_url`
value is a 1-tuple because of the trailing comma in
`data['base_url'] = base_url,` (line 92), modelled as a singleton list. -/
structure MgrEntry where
  doc_type : String
  server_id : String
  server_label : String := ""
  server_key : String
  base_url : List (Option String) := []
  deriving DecidableEq, Repr

/-- Embedding of Python `s.startswith(pre)` over the character lists of the
two strings (equivalent to `String.startsWith`, but reducible by the
kernel). -/
def pyStartsWith (s pre : String) : Bool :=
  pre.data.isPrefixOf s.data

/-- Outcome of a `ServerManager.add` call. No exception other than the failed
precondition assert escapes; URL rejection and the duplicate-entry error are
logged returns that leave the store unchanged. -/
inductive AddOutcome where
  | assertFailed
  | rejectedUrl
  | duplicateError
  | saved
  deriving DecidableEq, Repr

/-- Replacement of the first document matching `p` (the hit whose meta id the
update targets), in place. -/
def replaceFirst {α : Type} (p : α → Bool) (new : α) : List α → List α
  | [] => []
  | e :: rest => if p e then new :: rest else e :: replaceFirst p new rest

/-- Embedding of `ServerManager.add` of the direction-field revision
(mme_server/auth.py, lines 93-127; identically mme_server/datastore.py, lines
117-149). The index state is `none` when the index does not exist;
`ensure_exists` materializes an empty index. The entries matching
`(server_id, direction)` determine create (zero), in-place update (one) or the
logged duplicate error (more than one). The URL guard rejects only a *truthy*
`base_url` that does not start with the secure scheme prefix. -/
def ServerManager.add (idx : Option (List ServerEntry))
    (server_id server_label server_key direction : String)
    (base_url : Option String) :
    Option (List ServerEntry) × AddOutcome :=
  if server_id == "" || server_key == "" || !(direction == "in" || direction == "out") then
    (idx, .assertFailed)
  else if pyTruthyStr base_url && !(pyStartsWith (base_url.getD "") "https://") then
    (idx, .rejectedUrl)
  else
    let entries := idx.getD []
    let isMatch := fun (e : ServerEntry) => e.server_id == server_id && e.direction == direction
    let hits := entries.filter isMatch
    if hits.length > 1 then
      (some entries, .duplicateError)
    else
      let data : ServerEntry :=
        { server_id := server_id, server_label := server_label,
          server_key := server_key, direction := direction, base_url := base_url }
      if hits.length == 1 then
        (some (replaceFirst isMatch data entries), .saved)
      else
        (some (entries ++ [data]), .saved)

/-- Embedding of `ServerManager.verify` of the direction-field revision
(mme_server/auth.py, lines 159-167; identically mme_server/datastore.py,
lines 175-183): a falsy key or a missing index yields no value; otherwise the
hits are the entries whose `server_key` matches the token *and* whose
`direction` is `in`, and the first hit (if any) is returned. -/
def ServerManager.verify (idx : Option (List ServerEntry)) (key : Option String) :
    Option ServerEntry :=
  match idx, key with
  | some entries, some k =>
    if k == "" then none
    else (entries.filter (fun e => e.server_key == k && e.direction == "in")).head?
  | _, _ => none

/-- Embedding of `ServerManager.add` of the doc_type revision
(mme_server/managers/servers.py, lines 62-97): the direction picks the
document type (`client` for `in`, `server` for `out`), existing entries are
matched by `server_id` within that doc_type only, and for doc_type `server`
the stored `base_url` is the 1-tuple `(base_url,)`. The URL guard is the same
truthy-prefix test as in the other revision. -/
def MgrServerManager.add (idx : Option (List MgrEntry))
    (server_id server_label server_key direction : String)
    (base_url : Option String) :
    Option (List MgrEntry) × AddOutcome :=
  if server_id == "" || server_key == "" || !(direction == "in" || direction == "out") then
    (idx, .assertFailed)
  else if pyTruthyStr base_url && !(pyStartsWith (base_url.getD "") "https://") then
    (idx, .rejectedUrl)
  else
    let entries := idx.getD []
    let doc_type := if direction == "in" then "client" else "server"
    let isMatch := fun (e : MgrEntry) => e.doc_type == doc_type && e.server_id == server_id
    let hits := entries.filter isMatch
    if hits.length > 1 then
      (some entries, .duplicateError)
    else
      let data : MgrEntry :=
        { doc_type := doc_type, server_id := server_id, server_label := server_label,
          server_key := server_key,
          base_url := if doc_type == "server" then [base_url] else [] }
      if hits.length == 1 then
        (some (replaceFirst isMatch data entries), .saved)
      else
        (some (entries ++ [data]), .saved)

/-- Embedding of `ServerManager.verify` of the doc_type revision
(mme_server/managers/servers.py, lines 129-137): the search
`self.search()` is *not* restricted to a doc_type, so the only filter applied
is `server_key = key` — documents of both the inbound `client` type and the
outbound `server` type are eligible, and the first hit is returned. -/
def MgrServerManager.verify (idx : Option (List MgrEntry)) (key : Option String) :
    Option MgrEntry :=
  match idx, key with
  | some entries, some k =>
    if k == "" then none
    else (entries.filter (fun e => e.server_key == k)).head?
  | _, _ => none

/-- Outcome of one remote `send_request` call as observed by `proxy_request`
through `handle.get(timeout=timeout)`: a parsed response, a timeout, or some
other raised exception (network error, non-success HTTP response, failed
https assert, ...). -/
inductive CallOutcome where
  | ok (resp : String)
  | timeout
  | failed
  deriving DecidableEq, Repr

/-- Embedding of `proxy_request` (mme_server/server.py, lines 85-117).
`rows` is `db.servers.list()['rows']` and `call` gives the outcome of the
dispatched `send_request` for each selected server. The selection keeps the
outbound servers, restricted to `server_ids` when that argument is truthy.
When no server is selected, the `handles` local is never bound and the
collection loop raises an unbound-name error. Otherwise the collection loop
appends `(server, result)` on success and `continue`s — dropping the server
without a pair — on every raised exception: the bare `except TimeoutError`
clause at line 109 names the *builtin* TimeoutError (nothing is imported from
multiprocessing besides Pool), which never matches the
multiprocessing.TimeoutError that `handle.get(timeout=...)` raises, so on the
Python 3 targets the wait timeout falls into `except Exception: continue`
like every other failure and the `result = None` marker branch is dead code
(on Python 2.7 the undefined name would raise NameError instead; the
embedding follows the Python 3 behavior). -/
def selectServers (rows : List ServerEntry) (server_ids : Option (List String)) :
    List ServerEntry :=
  rows.filter
    (fun s => s.direction == "out" &&
      (match server_ids with
       | none => true
       | some ids => ids.isEmpty || ids.contains s.server_id))

/-- The collection loop body of `proxy_request`
(mme_server/server.py, lines 105-117), folded over the dispatched servers.
Both the wait timeout (multiprocessing.TimeoutError, unmatched by the builtin
`except TimeoutError` clause) and every other exception end in
`except Exception: continue`, so only successful partners contribute a pair. -/
def collectResults (call : ServerEntry → CallOutcome)
    (servers : List ServerEntry) (acc : List (ServerEntry × Option String)) :
    List (ServerEntry × Option String) :=
  servers.foldl
    (fun results s =>
      match call s with
      | .ok r => results ++ [(s, some r)]
      | .timeout => results
      | .failed => results)
    acc

def proxy_request (rows : List ServerEntry) (server_ids : Option (List String))
    (call : ServerEntry → CallOutcome) :
    Except PyErr (List (ServerEntry × Option String)) :=
  let servers := selectServers rows server_ids
  if servers.isEmpty then
    .error .nameError
  else
    .ok (collectResults call servers [])

/-- The per-server pair that the collection loop of `proxy_request` emits: a
response pair on success and no pair at all for any failure — the timed-out
partner is dropped just like an erroring one, because the dead builtin
`except TimeoutError` clause never catches the pool's timeout. -/
def resultPair (call : ServerEntry → CallOutcome) (s : ServerEntry) :
    Option (ServerEntry × Option String) :=
  match call s with
  | .ok r => some (s, some r)
  | .timeout => none
  | .failed => none

/-- A two-term ontology whose `is_a` edges form the cycle A -> B -> A. -/
def cycStanzas : List Stanza :=
  [{ id := "A", is_a := ["B"] }, { id := "B", is_a := ["A"] }]

/-- A three-term acyclic ontology chain HP:3 -> HP:2 -> HP:1. -/
def acyStanzas : List Stanza :=
  [{ id := "HP:1" }, { id := "HP:2", is_a := ["HP:1"] }, { id := "HP:3", is_a := ["HP:2"] }]

/-- A rank function witnessing the acyclicity of `acyStanzas`. -/
def acyRank : String → Nat :=
  fun id => if id == "HP:3" then 2 else if id == "HP:2" then 1 else 0

/-- Demo partner servers for the fan-out claims: one that times out, one that
fails with a non-timeout error, one that succeeds. -/
def srvTimeout : ServerEntry :=
  { server_id := "timeouty", server_key := "k1", direction := "out",
    base_url := some "https://timeouty.example" }

def srvFail : ServerEntry :=
  { server_id := "faily", server_key := "k2", direction := "out",
    base_url := some "https://faily.example" }

def srvOk : ServerEntry :=
  { server_id := "oky", server_key := "k3", direction := "out",
    base_url := some "https://oky.example" }

/-- Call outcomes of the three demo partners. -/
def demoCall : ServerEntry → CallOutcome :=
  fun s =>
    if s.server_id == "timeouty" then .timeout
    else if s.server_id == "faily" then .failed
    else .ok "response"

/-- The trust entry that `MgrServerManager.add` stores for an outbound demo
partner. -/
def demoOutEntry : MgrEntry :=
  { doc_type := "server", server_id := "partner", server_label := "lbl",
    server_key := "sekret", base_url := [some "https://partner.example"] }

/-- A small demo vocabulary resolving two phenotype terms and one gene. -/
def demoVocab : String → Option VTerm :=
  fun id =>
    if id == "HP:0000252" then
      some { id := "HP:0000252", name := ["Microcephaly"],
             term_category := ["HP:0000252", "HP:0007364", "HP:0000001"] }
    else if id == "HP:0003577" then
      some { id := "HP:0003577", name := ["Congenital onset"],
             term_category := ["HP:0003577", "HP:0003674"] }
    else if id == "NGLY1" then
      some { id := "ENSG00000151092", name := ["N-glycanase 1"] }
    else
      none

/-- A submission whose only feature carries an `ageOfOnset` term that the
vocabulary cannot resolve. -/
def badAooPatient : PatientJson :=
  { features := [{ id := "HP:0000252", ageOfOnset := some "HP:9999999" }] }

/-- A submission with a resolvable feature, an unresolvable feature, an
unobserved feature and one genomic feature with a gene. -/
def demoPatient : PatientJson :=
  { features :=
      [{ id := "HP:0000252" },
       { id := "HP:7777777" },
       { id := "HP:0003577", observed := some "no" }],
    genomicFeatures := [{ gene := some { id := some "NGLY1" } }] }

/-- A submission containing both an unresolvable `ageOfOnset` and a gene-less
genomic feature. -/
def badBothPatient : PatientJson :=
  { features := [{ id := "HP:0000252", ageOfOnset := some "HP:9999999" }],
    genomicFeatures := [{ gene := none }] }

/-- A submission whose only genomic feature lacks a `gene` value. -/
def genelessPatient : PatientJson :=
  { features := [{ id := "HP:0000252" }],
    genomicFeatures := [{ gene := none }] }

/-- A demo vocabulary index with one unambiguous term, plus a second document
sharing an `alt_id` with the first so that the shared alias is ambiguous. -/
def demoVocabDocs : List VTerm :=
  [{ id := "HP:0000252", name := ["Microcephaly"], alt_id := ["HP:0001366"] },
   { id := "HP:0001366", name := ["Obsolete microcephaly"], alt_id := ["HP:0001366"] }]


/-! ## Theorems -/

/-- Claim C7 (amended): on the domain of raw relevance scores (r >= 0) the
normalization f r = 1 - 1/(1+r) is strictly increasing, vanishes at 0, and
stays inside the interval from 0 inclusive to 1 exclusive, so every
MatchResult score built by MatchResult.from_index lies in that interval. -/
theorem claim_C7 (r s : ℚ) (hr : 0 ≤ r) (hs : 0 ≤ s) (hlt : r < s) :
    normalizeScore 0 = 0 ∧ normalizeScore r < normalizeScore s ∧
      0 ≤ normalizeScore r ∧ normalizeScore r < 1 := by
  have h1 : (0 : ℚ) < 1 + r := by linarith
  have h2 : (0 : ℚ) < 1 + s := by linarith
  refine ⟨by norm_num [normalizeScore], ?_, ?_, ?_⟩
  · have := one_div_lt_one_div_of_lt h1 (by linarith : 1 + r < 1 + s)
    simp only [normalizeScore]
    linarith
  · have hle : 1 / (1 + r) ≤ 1 := by
      rw [div_le_one h1]; linarith
    simp only [normalizeScore]; linarith
  · have hpos : 0 < 1 / (1 + r) := by positivity
    simp only [normalizeScore]; linarith

/-- Witness for claim C7 at the concrete scores r = 0, s = 1. -/
theorem claim_C7_witness :
    normalizeScore 0 = 0 ∧ normalizeScore 0 < normalizeScore 1 ∧
      0 ≤ normalizeScore 0 ∧ normalizeScore 0 < 1 :=
  claim_C7 0 1 (by norm_num) (by norm_num) (by norm_num)

/-- Counterexample for claim C7 as stated: the normalization is *not* below 1
for every finite raw value, since at r = -2 the formula yields 2. (Raw
ElasticSearch relevance scores are nonnegative, so the amended claim restricts
the bound to r >= 0.) -/
theorem claim_C7_counterexample : normalizeScore (-2) = 2 ∧ ¬ normalizeScore (-2) < 1 := by
  norm_num [normalizeScore]

/-- Claim C8 (confirmed): reconstructing a patient from its persisted index
form (Patient.from_index after Patient.to_index) yields the same phenotype
closure set, the same gene set, and the same canonical data. -/
theorem claim_C8 (p : Patient) :
    (Patient.from_index (Patient.to_index p)).phenotypes = p.phenotypes ∧
      (Patient.from_index (Patient.to_index p)).genes = p.genes ∧
      (Patient.from_index (Patient.to_index p)).data = p.data := by
  refine ⟨?_, ?_, rfl⟩ <;>
    simp [Patient.from_index, Patient.to_index, Finset.sort_toFinset]

/-- Claim C9 (amended): provided the vocabularies index exists, get_term
returns without raising, it yields a term exactly when precisely one document
matches the id against its canonical id or alt_id aliases, the returned term
is such a matching document, and it is the unique one. -/
theorem claim_C9 (docs : List VTerm) (qid : String) :
    ∃ r, get_term (some docs) qid = .ok r ∧
      (r.isSome ↔ (docs.filter (vtermMatches qid)).length = 1) ∧
      (∀ t, r = some t → t ∈ docs ∧ vtermMatches qid t = true ∧
        ∀ u ∈ docs, vtermMatches qid u = true → u = t) := by
  by_cases h : (docs.filter (vtermMatches qid)).length = 1
  · obtain ⟨t0, hf⟩ := List.length_eq_one.mp h
    refine ⟨some t0, by simp [get_term, h, hf], by simp [h], ?_⟩
    intro t ht
    have ht2 : t0 = t := by simpa using ht
    have hmem : t ∈ docs.filter (vtermMatches qid) := by simp [hf, ← ht2]
    refine ⟨(List.mem_filter.mp hmem).1, (List.mem_filter.mp hmem).2, ?_⟩
    intro u hu hmu
    have hu2 : u ∈ docs.filter (vtermMatches qid) := List.mem_filter.mpr ⟨hu, hmu⟩
    rw [hf] at hu2
    simpa [← ht2] using hu2
  · exact ⟨none, by simp [get_term, h], by simp [h], by simp⟩

/-- Witness for claim C9 on the demo vocabulary store, at an id that resolves
uniquely. -/
theorem claim_C9_witness :
    ∃ r, get_term (some demoVocabDocs) "HP:0000252" = .ok r ∧
      (r.isSome ↔ (demoVocabDocs.filter (vtermMatches "HP:0000252")).length = 1) ∧
      (∀ t, r = some t → t ∈ demoVocabDocs ∧ vtermMatches "HP:0000252" t = true ∧
        ∀ u ∈ demoVocabDocs, vtermMatches "HP:0000252" u = true → u = t) :=
  claim_C9 demoVocabDocs "HP:0000252"

/-- Counterexample for claim C9 as stated: get_term is not exception-free,
because BaseManager.search raises when the backing index does not exist. -/
theorem claim_C9_counterexample :
    get_term (none : Option (List VTerm)) "HP:0000252" = .error .exception := rfl

/-- Claim C4 (amended): in both revisions of the trust registry, an add call
with direction out whose base_url is truthy (non-empty) but does not start
with the secure prefix is rejected (the error is logged and the call returns)
and leaves the store untouched; an *empty* base_url, however, passes the
truthiness guard and is accepted. -/
theorem claim_C4 (idx : Option (List ServerEntry)) (idx2 : Option (List MgrEntry))
    (sid lbl key u : String)
    (hsid : sid ≠ "") (hkey : key ≠ "") (hu : u ≠ "")
    (hins : pyStartsWith u "https://" = false) :
    ServerManager.add idx sid lbl key "out" (some u) = (idx, .rejectedUrl) ∧
      MgrServerManager.add idx2 sid lbl key "out" (some u) = (idx2, .rejectedUrl) := by
  constructor <;>
    simp [ServerManager.add, MgrServerManager.add, pyTruthyStr, hsid, hkey, hu, hins]

/-- Witness for claim C4 at a concrete insecure URL. -/
theorem claim_C4_witness :
    ServerManager.add none "srv" "lbl" "key" "out" (some "http://insecure.example")
        = (none, .rejectedUrl) ∧
      MgrServerManager.add none "srv" "lbl" "key" "out" (some "http://insecure.example")
        = (none, .rejectedUrl) :=
  claim_C4 none none "srv" "lbl" "key" "http://insecure.example"
    (by decide) (by decide) (by decide) (by decide)

/-- Counterexample for claim C4 as stated: an *empty* base_url for direction
out is not rejected — the guard `if base_url and not base_url.startswith(...)`
is skipped for a falsy URL, and a trust entry is created with the empty URL. -/
theorem claim_C4_counterexample :
    ServerManager.add none "srv" "lbl" "key" "out" (some "") =
      (some [{ server_id := "srv", server_label := "lbl", server_key := "key",
               direction := "out", base_url := some "" }], .saved) := by
  decide

/-- Claim C3 (amended): in the auth.py revision, verify returns an entry only
if some stored entry has direction in and secret key equal to the token, and
returns no value when no such inbound entry exists. (The
managers/servers.py revision filters on the secret key alone, so there an
outbound entry can authenticate an inbound request; see the counterexample.) -/
theorem claim_C3 (entries : List ServerEntry) (k : String) :
    (∀ e, ServerManager.verify (some entries) (some k) = some e →
        e ∈ entries ∧ e.server_key = k ∧ e.direction = "in") ∧
      ((∀ e ∈ entries, ¬(e.server_key = k ∧ e.direction = "in")) →
        ServerManager.verify (some entries) (some k) = none) := by
  constructor
  · intro e he
    simp only [ServerManager.verify] at he
    by_cases hk : k = ""
    · simp [hk] at he
    · rw [if_neg (by simpa using hk)] at he
      have hmem := List.mem_of_mem_head? he
      have := List.mem_filter.mp hmem
      refine ⟨this.1, ?_, ?_⟩
      · simpa using (Bool.and_eq_true_iff.mp this.2).1
      · simpa using (Bool.and_eq_true_iff.mp this.2).2
  · intro hnone
    simp only [ServerManager.verify]
    by_cases hk : k = ""
    · simp [hk]
    · rw [if_neg (by simpa using hk)]
      have hfil : entries.filter (fun e => e.server_key == k && e.direction == "in") = [] := by
        rw [List.filter_eq_nil]
        intro e he
        have := hnone e he
        simp only [Bool.and_eq_true_iff, beq_iff_eq]
        tauto
      simp [hfil]

/-- Witness for claim C3: a store holding one inbound and one outbound entry,
queried with the inbound key. -/
theorem claim_C3_witness :
    (∀ e, ServerManager.verify
          (some [{ server_id := "c", server_key := "ck", direction := "in" },
                 { server_id := "s", server_key := "sk", direction := "out" }])
          (some "ck") = some e →
        e ∈ [({ server_id := "c", server_key := "ck", direction := "in" } : ServerEntry),
             { server_id := "s", server_key := "sk", direction := "out" }] ∧
          e.server_key = "ck" ∧ e.direction = "in") ∧
      ((∀ e ∈ [({ server_id := "c", server_key := "ck", direction := "in" } : ServerEntry),
               { server_id := "s", server_key := "sk", direction := "out" }],
            ¬(e.server_key = "ck" ∧ e.direction = "in")) →
        ServerManager.verify
          (some [{ server_id := "c", server_key := "ck", direction := "in" },
                 { server_id := "s", server_key := "sk", direction := "out" }])
          (some "ck") = none) :=
  claim_C3 _ "ck"

/-- Counterexample for claim C3 as stated: in the managers/servers.py
revision, adding a trust entry with direction out (stored under doc_type
server) and then calling verify with that entry's secret key returns the
outbound entry — verify filters on the key alone, so an entry stored with
direction out *does* authenticate an inbound request. -/
theorem claim_C3_counterexample :
    MgrServerManager.add none "partner" "lbl" "sekret" "out" (some "https://partner.example")
        = (some [demoOutEntry], .saved) ∧
      MgrServerManager.verify (some [demoOutEntry]) (some "sekret") = some demoOutEntry ∧
      demoOutEntry.doc_type = "server" := by
  refine ⟨by decide, by decide, rfl⟩

/-- The collection loop of proxy_request appends exactly the pairs that
resultPair yields per dispatched server, in dispatch order. -/
theorem collectResults_eq (call : ServerEntry → CallOutcome) (servers : List ServerEntry) :
    ∀ acc, collectResults call servers acc = acc ++ servers.filterMap (resultPair call) := by
  induction servers with
  | nil => intro acc; simp [collectResults]
  | cons s ss ih =>
    intro acc
    have h1 : collectResults call (s :: ss) acc = collectResults call ss
        (match call s with
         | .ok r => acc ++ [(s, some r)]
         | .timeout => acc
         | .failed => acc) := rfl
    rw [h1]
    cases hc : call s <;> simp [hc, ih, resultPair, List.filterMap_cons]

/-- Claim C2 (amended): proxy_request dispatches to the selected outbound
partners independently; a partner that succeeds contributes a response pair,
while a partner that times out or fails with any other error is silently
dropped and contributes no pair — the `except TimeoutError` clause that would
record a (partner, None) marker names the builtin TimeoutError and never
matches the multiprocessing timeout, so every failure ends in
`except Exception: continue` — without affecting the other partners. When no
partner is selected the collection loop reads the unbound `handles` local and
raises. -/
theorem claim_C2 (rows : List ServerEntry) (ids : Option (List String))
    (call : ServerEntry → CallOutcome) :
    (selectServers rows ids = [] → proxy_request rows ids call = .error .nameError) ∧
      (selectServers rows ids ≠ [] →
        proxy_request rows ids call =
          .ok ((selectServers rows ids).filterMap (resultPair call))) := by
  constructor
  · intro h
    simp [proxy_request, h]
  · intro h
    simp [proxy_request, List.isEmpty_iff, h, collectResults_eq]

/-- Witness for claim C2 on the three demo partners (timeout, failure,
success), dispatched without a server_ids restriction. -/
theorem claim_C2_witness :
    (selectServers [srvTimeout, srvFail, srvOk] none = [] →
        proxy_request [srvTimeout, srvFail, srvOk] none demoCall = .error .nameError) ∧
      (selectServers [srvTimeout, srvFail, srvOk] none ≠ [] →
        proxy_request [srvTimeout, srvFail, srvOk] none demoCall =
          .ok ((selectServers [srvTimeout, srvFail, srvOk] none).filterMap
            (resultPair demoCall))) :=
  claim_C2 [srvTimeout, srvFail, srvOk] none demoCall

/-- Counterexample for claim C2 as stated: with three dispatched partners of
which one times out, one errors and one succeeds, the result holds only one
pair — the success — and no failure markers at all: the timed-out partner is
not caught by the dead builtin `except TimeoutError` clause and both failing
partners are skipped by the `continue` branch instead of contributing a
failure marker each. -/
theorem claim_C2_counterexample :
    proxy_request [srvTimeout, srvFail, srvOk] none demoCall =
        .ok [(srvOk, some "response")] ∧
      (selectServers [srvTimeout, srvFail, srvOk] none).length = 3 := by
  exact ⟨rfl, rfl⟩

/-- Components of a successfully normalized feature: the implied phenotypes
are the resolved term_category (empty when the primary id is unresolved), the
presence flag is the defaulted observed test, and an unresolved primary id is
kept unchanged in the canonical data. -/
theorem feature_init_ok (vocab : String → Option VTerm) (fj : FeatureJson) (f : Feature)
    (h : Feature.init vocab fj = .ok f) :
    f.phenotypes = (match vocab fj.id with | some t => t.term_category | none => []) ∧
      f.is_present = (fj.observed.getD "yes" == "yes") ∧
      f.data.id = (match vocab fj.id with | some t => t.id | none => fj.id) := by
  have hobs : ∀ (o : Option String),
      ((some (if (o.getD "yes" == "yes") = true then "yes" else "no") : Option String)
          == some "yes") = (o.getD "yes" == "yes") := by
    intro o
    cases hb : (o.getD "yes" == "yes") <;> simp [hb] <;> decide
  unfold Feature.init at h
  by_cases ha : pyTruthyStr fj.ageOfOnset = true <;>
    cases hv : vocab fj.id <;> rw [hv] at h <;> dsimp only at h
  · rw [if_pos ha] at h
    cases hw : vocab (fj.ageOfOnset.getD "") <;> rw [hw] at h
    · cases h
    · injection h with h2
      subst h2
      exact ⟨rfl, hobs fj.observed, rfl⟩
  · rw [if_pos ha] at h
    cases hw : vocab (fj.ageOfOnset.getD "") <;> rw [hw] at h
    · cases h
    · injection h with h2
      subst h2
      exact ⟨rfl, hobs fj.observed, rfl⟩
  · rw [if_neg ha] at h
    injection h with h2
    subst h2
    exact ⟨rfl, hobs fj.observed, rfl⟩
  · rw [if_neg ha] at h
    injection h with h2
    subst h2
    exact ⟨rfl, hobs fj.observed, rfl⟩

/-- A feature normalizes without raising as soon as its ageOfOnset, when
truthy, resolves; the primary term id may freely fail to resolve. -/
theorem feature_init_some (vocab : String → Option VTerm) (fj : FeatureJson)
    (ha : pyTruthyStr fj.ageOfOnset = true → (vocab (fj.ageOfOnset.getD "")).isSome) :
    ∃ f, Feature.init vocab fj = .ok f := by
  unfold Feature.init
  by_cases hp : pyTruthyStr fj.ageOfOnset = true <;>
    cases hv : vocab fj.id <;> dsimp only
  · obtain ⟨t2, hw⟩ := Option.isSome_iff_exists.mp (ha hp)
    rw [if_pos hp, hw]
    exact ⟨_, rfl⟩
  · obtain ⟨t2, hw⟩ := Option.isSome_iff_exists.mp (ha hp)
    rw [if_pos hp, hw]
    exact ⟨_, rfl⟩
  · rw [if_neg hp]
    exact ⟨_, rfl⟩
  · rw [if_neg hp]
    exact ⟨_, rfl⟩

/-- Successful feature-list normalization relates inputs and outputs
pointwise. -/
theorem normFeatures_forall2 (vocab : String → Option VTerm) :
    ∀ (l : List FeatureJson) (fs : List Feature),
      normFeatures vocab l = .ok fs →
      List.Forall₂ (fun fj f => Feature.init vocab fj = .ok f) l fs
  | [], fs, h => by
    injection h with h2
    subst h2
    exact List.Forall₂.nil
  | fj :: rest, fs, h => by
    unfold normFeatures at h
    cases hi : Feature.init vocab fj <;> rw [hi] at h
    · cases h
    · cases hr : normFeatures vocab rest <;> rw [hr] at h
      · cases h
      · injection h with h2
        subst h2
        exact List.Forall₂.cons hi (normFeatures_forall2 vocab rest _ hr)

/-- Feature-list normalization succeeds when every truthy ageOfOnset
resolves. -/
theorem normFeatures_some (vocab : String → Option VTerm) :
    ∀ (l : List FeatureJson),
      (∀ fj ∈ l, pyTruthyStr fj.ageOfOnset = true → (vocab (fj.ageOfOnset.getD "")).isSome) →
      ∃ fs, normFeatures vocab l = .ok fs
  | [], _ => ⟨[], rfl⟩
  | fj :: rest, ha => by
    obtain ⟨f, hf⟩ := feature_init_some vocab fj (ha fj (by simp))
    obtain ⟨fs, hfs⟩ := normFeatures_some vocab rest (fun x hx => ha x (by simp [hx]))
    exact ⟨f :: fs, by unfold normFeatures; rw [hf, hfs]⟩

/-- Membership in the accumulated implied-phenotype set. -/
theorem impliedPhenotypes_mem (x : String) :
    ∀ (fs : List Feature),
      x ∈ impliedPhenotypes fs ↔ ∃ f ∈ fs, f.is_present = true ∧ x ∈ f.phenotypes
  | [] => by simp [impliedPhenotypes]
  | f :: fs => by
    rw [impliedPhenotypes]
    by_cases hp : f.is_present = true <;>
      simp [hp, impliedPhenotypes_mem x fs, Feature.get_implied_terms]

/-- Transfer of an existential over the outputs of a pointwise functional
relation to an existential over the inputs. -/
theorem forall2_exists_iff {α β : Type} (R : α → β → Prop) (P : β → Prop)
    (hfun : ∀ a f1 f2, R a f1 → R a f2 → f1 = f2) :
    ∀ (l : List α) (fs : List β), List.Forall₂ R l fs →
      ((∃ f ∈ fs, P f) ↔ ∃ a ∈ l, ∃ f, R a f ∧ P f)
  | _, _, List.Forall₂.nil => by simp
  | _, _, List.Forall₂.cons hR hrest => by
    rw [List.exists_mem_cons_iff, List.exists_mem_cons_iff,
      forall2_exists_iff R P hfun _ _ hrest]
    constructor
    · rintro (hP | hrest2)
      · exact Or.inl ⟨_, hR, hP⟩
      · exact Or.inr hrest2
    · rintro (⟨f, hRf, hP⟩ | hrest2)
      · exact Or.inl (hfun _ _ _ hRf hR ▸ hP)
      · exact Or.inr hrest2

/-- The `self.gene` attribute of a normalized genomic feature is assigned
exactly when the input carried a gene object. -/
theorem genomicFeature_init_gene (vocab : String → Option VTerm)
    (gfj : GenomicFeatureJson) :
    (GenomicFeature.init vocab gfj).gene.isSome = gfj.gene.isSome := by
  cases h : gfj.gene <;> simp [GenomicFeature.init, h]

/-- Gene collection succeeds when every normalized genomic feature has its
gene attribute assigned. -/
theorem collectGenes_some :
    ∀ (gfs : List GenomicFeature),
      (∀ gf ∈ gfs, gf.gene.isSome) → ∃ s, collectGenes gfs = .ok s
  | [], _ => ⟨∅, rfl⟩
  | gf :: rest, h => by
    obtain ⟨g, hg⟩ := Option.isSome_iff_exists.mp (h gf (by simp))
    obtain ⟨s, hs⟩ := collectGenes_some rest (fun x hx => h x (by simp [hx]))
    refine ⟨(if pyTruthyStr g.get_id then {(g.get_id).getD ""} else ∅) ∪ s, ?_⟩
    unfold collectGenes
    rw [show gf.get_gene_id = .ok g.get_id by simp [GenomicFeature.get_gene_id, hg], hs]

/-- Gene collection raises AttributeError as soon as some genomic feature in
the list has no assigned gene attribute. -/
theorem collectGenes_error :
    ∀ (gfs : List GenomicFeature),
      (∃ gf ∈ gfs, gf.gene = none) → collectGenes gfs = .error .attributeError
  | gf :: rest, h => by
    unfold collectGenes
    cases hg : gf.gene with
    | none =>
      rw [show gf.get_gene_id = .error .attributeError by
        simp [GenomicFeature.get_gene_id, hg]]
    | some g =>
      obtain ⟨gf2, hmem, hnone⟩ := h
      rcases List.mem_cons.mp hmem with heq | hmem2
      · subst heq; rw [hg] at hnone; cases hnone
      · rw [show gf.get_gene_id = .ok g.get_id by simp [GenomicFeature.get_gene_id, hg],
          collectGenes_error rest ⟨gf2, hmem2, hnone⟩]

/-- Claim C5 (amended): provided every *ageOfOnset* term that is present
resolves (an unresolved one raises TypeError, see the counterexample) and
every genomic feature carries a gene object (claim C10 covers the gene-less
crash), Patient.from_api never aborts on an unresolved primary phenotype term:
the canonical feature list keeps one entry per submitted feature with an
unresolved id kept verbatim, and the derived phenotype set is exactly the
union of the term_category closures of the resolved features whose observed
value (defaulting to observed) is yes. -/
theorem claim_C5 (vocab : String → Option VTerm) (pd : PatientJson)
    (haoo : ∀ fj ∈ pd.features,
      pyTruthyStr fj.ageOfOnset = true → (vocab (fj.ageOfOnset.getD "")).isSome)
    (hgene : ∀ gfj ∈ pd.genomicFeatures, gfj.gene.isSome) :
    ∃ p, Patient.from_api vocab pd = .ok p ∧
      p.data.features.length = pd.features.length ∧
      List.Forall₂ (fun (fj out : FeatureJson) => vocab fj.id = none → out.id = fj.id)
        pd.features p.data.features ∧
      ∀ x, x ∈ p.phenotypes ↔ ∃ fj ∈ pd.features, ∃ t, vocab fj.id = some t ∧
        fj.observed.getD "yes" = "yes" ∧ x ∈ t.term_category := by
  obtain ⟨fs, hfs⟩ := normFeatures_some vocab pd.features haoo
  have hgfs : ∀ gf ∈ pd.genomicFeatures.map (GenomicFeature.init vocab),
      gf.gene.isSome := by
    intro gf hgf
    obtain ⟨gfj, hgfj, rfl⟩ := List.mem_map.mp hgf
    rw [genomicFeature_init_gene]
    exact hgene gfj hgfj
  obtain ⟨s, hsgen⟩ := collectGenes_some _ hgfs
  have hF2 := normFeatures_forall2 vocab pd.features fs hfs
  have hfun : ∀ (a : FeatureJson) (f1 f2 : Feature),
      Feature.init vocab a = .ok f1 → Feature.init vocab a = .ok f2 → f1 = f2 := by
    intro a f1 f2 h1 h2
    exact Except.ok.inj (h1.symm.trans h2)
  have hapi : Patient.from_api vocab pd = .ok
      { phenotypes := impliedPhenotypes fs,
        genes := s,
        data := { pd with
                  features := fs.map Feature.to_json,
                  genomicFeatures :=
                    (pd.genomicFeatures.map (GenomicFeature.init vocab)).map
                      GenomicFeature.to_json,
                  test := some (pd.test.getD false) } } := by
    simp [Patient.from_api, hfs, hsgen]
  refine ⟨_, hapi, ?_, ?_, ?_⟩
  · simpa using (List.Forall₂.length_eq hF2).symm
  · simp only
    rw [List.forall₂_map_right_iff]
    refine hF2.imp ?_
    intro a b hab hnone
    have h3 := (feature_init_ok vocab a b hab).2.2
    rw [hnone] at h3
    dsimp only at h3
    exact h3
  · intro x
    simp only
    rw [impliedPhenotypes_mem,
      forall2_exists_iff (fun fj f => Feature.init vocab fj = .ok f)
        (fun f => f.is_present = true ∧ x ∈ f.phenotypes) hfun pd.features fs hF2]
    constructor
    · rintro ⟨fj, hmem, f, hok, hpres, hx⟩
      obtain ⟨hphen, hispres, _⟩ := feature_init_ok vocab fj f hok
      cases hv : vocab fj.id with
      | none =>
        rw [hv] at hphen
        dsimp only at hphen
        rw [hphen] at hx
        cases hx
      | some t =>
        rw [hv] at hphen
        dsimp only at hphen
        refine ⟨fj, hmem, t, hv, ?_, hphen ▸ hx⟩
        rw [hispres] at hpres
        exact beq_iff_eq.mp hpres
    · rintro ⟨fj, hmem, t, hv, hobs, hx⟩
      obtain ⟨f, hok⟩ := feature_init_some vocab fj (haoo fj hmem)
      obtain ⟨hphen, hispres, _⟩ := feature_init_ok vocab fj f hok
      rw [hv] at hphen
      dsimp only at hphen
      refine ⟨fj, hmem, f, hok, ?_, hphen ▸ hx⟩
      rw [hispres, hobs]
      rfl

/-- Witness for claim C5 on the demo submission: one resolvable observed
feature, one unresolvable feature and one unobserved feature. -/
theorem claim_C5_witness :
    ∃ p, Patient.from_api demoVocab demoPatient = .ok p ∧
      p.data.features.length = demoPatient.features.length ∧
      List.Forall₂ (fun (fj out : FeatureJson) => demoVocab fj.id = none → out.id = fj.id)
        demoPatient.features p.data.features ∧
      ∀ x, x ∈ p.phenotypes ↔ ∃ fj ∈ demoPatient.features, ∃ t,
        demoVocab fj.id = some t ∧ fj.observed.getD "yes" = "yes" ∧
        x ∈ t.term_category :=
  claim_C5 demoVocab demoPatient (by decide) (by decide)

/-- Counterexample for claim C5 as stated: a submission whose feature carries
an unresolvable ageOfOnset term makes Patient.from_api abort with TypeError —
normalization is not abort-free for every unresolved term. -/
theorem claim_C5_counterexample :
    Patient.from_api demoVocab badAooPatient = .error .typeError := rfl

/-- Claim C10 (amended): provided feature normalization itself does not abort
first (no unresolvable ageOfOnset), a submission containing a genomic feature
without a gene value makes Patient.from_api raise AttributeError, because
GenomicFeature.get_gene_id reads the never-assigned self.gene attribute; the
gene-less feature is never normalized or retained. -/
theorem claim_C10 (vocab : String → Option VTerm) (pd : PatientJson)
    (hfeat : ∀ fj ∈ pd.features,
      pyTruthyStr fj.ageOfOnset = true → (vocab (fj.ageOfOnset.getD "")).isSome)
    (hsome : ∃ gfj ∈ pd.genomicFeatures, gfj.gene = none) :
    Patient.from_api vocab pd = .error .attributeError := by
  obtain ⟨fs, hfs⟩ := normFeatures_some vocab pd.features hfeat
  obtain ⟨gfj, hmem, hnone⟩ := hsome
  have hmap : ∃ gf ∈ pd.genomicFeatures.map (GenomicFeature.init vocab),
      gf.gene = none :=
    ⟨GenomicFeature.init vocab gfj, List.mem_map_of_mem _ hmem,
      by simp [GenomicFeature.init, hnone]⟩
  simp [Patient.from_api, hfs, collectGenes_error _ hmap]

/-- Witness for claim C10 on a submission whose only genomic feature lacks a
gene. -/
theorem claim_C10_witness :
    Patient.from_api demoVocab genelessPatient = .error .attributeError :=
  claim_C10 demoVocab genelessPatient (by decide) ⟨{ gene := none }, by decide, rfl⟩

/-- Counterexample for claim C10 as stated: when an unresolvable ageOfOnset
aborts feature normalization first, a submission that does contain a gene-less
genomic feature raises TypeError, not AttributeError. -/
theorem claim_C10_counterexample :
    Patient.from_api demoVocab badBothPatient = .error .typeError ∧
      badBothPatient.genomicFeatures = [{ gene := none }] :=
  ⟨rfl, rfl⟩

/-- A successful dict lookup returns a stored binding. -/
theorem dictLookup_mem (m : List (String × Term)) (k : String) (v : Term)
    (h : dictLookup m k = some v) : (k, v) ∈ m := by
  unfold dictLookup at h
  cases hf : m.find? (fun kv => kv.1 == k) with
  | none => rw [hf] at h; cases h
  | some kv =>
    rw [hf] at h
    injection h with h2
    have hkey := List.find?_some hf
    have hmem := List.mem_of_find?_eq_some hf
    have : kv = (k, v) := by
      obtain ⟨a, b⟩ := kv
      simp only at h2
      simp only [beq_iff_eq] at hkey
      simp [hkey, h2]
    rw [← this]
    exact hmem

/-- The threaded parent loop only grows the ancestors set, provided each
recursive call does. -/
theorem foldAncestors_mono (g : String → Finset String → Option (Finset String))
    (hg : ∀ p a s, g p a = some s → a ⊆ s) :
    ∀ (ps : List String) (anc s : Finset String),
      foldAncestors g ps anc = some s → anc ⊆ s
  | [], anc, s, h => by
    injection h with h2
    exact h2 ▸ Finset.Subset.refl anc
  | p :: ps, anc, s, h => by
    unfold foldAncestors at h
    cases hgp : g p anc with
    | none => rw [hgp] at h; cases h
    | some anc2 =>
      rw [hgp] at h
      exact (hg p anc anc2 hgp).trans (foldAncestors_mono g hg ps anc2 s h)

/-- The traversal only grows the ancestors set. -/
theorem get_ancestors_mono (terms : List (String × Term)) :
    ∀ (fuel : Nat) (id : String) (anc s : Finset String),
      get_ancestors terms fuel id anc = some s → anc ⊆ s
  | 0, _, _, _, h => by cases h
  | fuel + 1, id, anc, s, h => by
    unfold get_ancestors at h
    cases hd : dictLookup terms id with
    | none => rw [hd] at h; cases h
    | some t =>
      rw [hd] at h
      exact (Finset.subset_insert id anc).trans
        (foldAncestors_mono _ (get_ancestors_mono terms fuel) t.is_a _ s h)

/-- A successful traversal records the node itself. -/
theorem get_ancestors_self (terms : List (String × Term)) (fuel : Nat)
    (id : String) (anc s : Finset String)
    (h : get_ancestors terms fuel id anc = some s) : id ∈ s := by
  match fuel with
  | 0 => cases h
  | fuel + 1 =>
    unfold get_ancestors at h
    cases hd : dictLookup terms id with
    | none => rw [hd] at h; cases h
    | some t =>
      rw [hd] at h
      exact foldAncestors_mono _ (get_ancestors_mono terms fuel) t.is_a _ s h
        (Finset.mem_insert_self id anc)

/-- Soundness of the parent loop: every member of the final set was already an
ancestor or is reachable from one of the parents, provided each recursive call
is sound for its own start node. -/
theorem foldAncestors_sound (g : String → Finset String → Option (Finset String))
    (Q : String → String → Prop)
    (hg : ∀ p a s x, g p a = some s → x ∈ s → x ∈ a ∨ Q p x) :
    ∀ (ps : List String) (anc s : Finset String) (x : String),
      foldAncestors g ps anc = some s → x ∈ s → x ∈ anc ∨ ∃ p ∈ ps, Q p x
  | [], anc, s, x, h, hx => by
    injection h with h2
    exact Or.inl (h2 ▸ hx)
  | p :: ps, anc, s, x, h, hx => by
    unfold foldAncestors at h
    cases hgp : g p anc with
    | none => rw [hgp] at h; cases h
    | some anc2 =>
      rw [hgp] at h
      rcases foldAncestors_sound g Q hg ps anc2 s x h hx with h2 | ⟨q, hq, hQ⟩
      · rcases hg p anc anc2 x hgp h2 with h3 | h3
        · exact Or.inl h3
        · exact Or.inr ⟨p, by simp, h3⟩
      · exact Or.inr ⟨q, by simp [hq], hQ⟩

/-- Soundness of the traversal: every member of the result set was already in
the initial ancestors set or is reachable from the start node. -/
theorem get_ancestors_sound (terms : List (String × Term)) :
    ∀ (fuel : Nat) (id : String) (anc s : Finset String) (x : String),
      get_ancestors terms fuel id anc = some s → x ∈ s →
      x ∈ anc ∨ ReachesTerm terms id x
  | 0, _, _, _, _, h, _ => by cases h
  | fuel + 1, id, anc, s, x, h, hx => by
    unfold get_ancestors at h
    cases hd : dictLookup terms id with
    | none => rw [hd] at h; cases h
    | some t =>
      rw [hd] at h
      rcases foldAncestors_sound _ (ReachesTerm terms)
          (get_ancestors_sound terms fuel) t.is_a _ s x h hx with h2 | ⟨p, hp, hr⟩
      · rcases Finset.mem_insert.mp h2 with rfl | h3
        · exact Or.inr (ReachesTerm.refl x)
        · exact Or.inl h3
      · exact Or.inr (ReachesTerm.step id p x t hd hp hr)

/-- Every parent processed by a successful loop run had a successful recursive
call whose result is contained in the final set. -/
theorem foldAncestors_elem (g : String → Finset String → Option (Finset String))
    (hg : ∀ p a s, g p a = some s → a ⊆ s) :
    ∀ (ps : List String) (anc s : Finset String) (p : String),
      foldAncestors g ps anc = some s → p ∈ ps →
      ∃ a2 s2, g p a2 = some s2 ∧ s2 ⊆ s
  | q :: ps, anc, s, p, h, hp => by
    unfold foldAncestors at h
    cases hgq : g q anc with
    | none => rw [hgq] at h; cases h
    | some anc2 =>
      rw [hgq] at h
      rcases List.mem_cons.mp hp with rfl | hp2
      · exact ⟨anc, anc2, hgq, foldAncestors_mono g hg ps anc2 s h⟩
      · exact foldAncestors_elem g hg ps anc2 s p h hp2

/-- Completeness of the traversal: a successful run collects every node
reachable from the start node. -/
theorem get_ancestors_complete (terms : List (String × Term)) :
    ∀ (fuel : Nat) (id : String) (anc s : Finset String),
      get_ancestors terms fuel id anc = some s →
      ∀ x, ReachesTerm terms id x → x ∈ s
  | 0, _, _, _, h => by cases h
  | fuel + 1, id, anc, s, h => by
    intro x hreach
    match hreach with
    | ReachesTerm.refl _ =>
      exact get_ancestors_self terms (fuel + 1) id anc s h
    | ReachesTerm.step _ p _ t2 hd2 hp hr =>
      unfold get_ancestors at h
      rw [hd2] at h
      obtain ⟨a2, s2, hga, hsub⟩ := foldAncestors_elem _
        (get_ancestors_mono terms fuel) t2.is_a _ s p h hp
      exact hsub (get_ancestors_complete terms fuel p a2 s2 hga x hr)

/-- The parent loop succeeds when every recursive call does. -/
theorem foldAncestors_total (g : String → Finset String → Option (Finset String)) :
    ∀ (ps : List String),
      (∀ p ∈ ps, ∀ a, ∃ s, g p a = some s) →
      ∀ anc, ∃ s, foldAncestors g ps anc = some s
  | [], _, anc => ⟨anc, rfl⟩
  | p :: ps, h, anc => by
    obtain ⟨s1, hs1⟩ := h p (by simp) anc
    obtain ⟨s2, hs2⟩ := foldAncestors_total g ps (fun q hq a => h q (by simp [hq]) a) s1
    refine ⟨s2, ?_⟩
    unfold foldAncestors
    rw [hs1]
    exact hs2

/-- Termination of the traversal on ranked (acyclic) term graphs whose parent
references all resolve: any fuel above the rank of the start node suffices. -/
theorem get_ancestors_total (terms : List (String × Term)) (rk : String → Nat)
    (hclosed : ∀ a t p, dictLookup terms a = some t → p ∈ t.is_a →
      (dictLookup terms p).isSome)
    (hrank : ∀ a t p, dictLookup terms a = some t → p ∈ t.is_a → rk p < rk a) :
    ∀ (fuel : Nat) (id : String) (anc : Finset String), rk id < fuel →
      (dictLookup terms id).isSome →
      ∃ s, get_ancestors terms fuel id anc = some s
  | 0, id, _, hlt, _ => absurd hlt (Nat.not_lt_zero (rk id))
  | fuel + 1, id, anc, hlt, hsome => by
    obtain ⟨t, ht⟩ := Option.isSome_iff_exists.mp hsome
    have hps : ∀ p ∈ t.is_a, ∀ a, ∃ s, get_ancestors terms fuel p a = some s := by
      intro p hp a
      have hplt : rk p < fuel :=
        Nat.lt_of_lt_of_le (hrank id t p ht hp) (Nat.lt_succ_iff.mp hlt)
      exact get_ancestors_total terms rk hclosed hrank fuel p a hplt (hclosed id t p ht hp)
    obtain ⟨s, hs⟩ := foldAncestors_total _ t.is_a hps (insert id anc)
    refine ⟨s, ?_⟩
    unfold get_ancestors
    rw [ht]
    exact hs

/-- The completion loop of documents succeeds when the closure computation
succeeds for every stored term. -/
theorem mapDocs_total (g : String → Option (Finset String)) :
    ∀ (m : List (String × Term)),
      (∀ kv ∈ m, ∃ s, g kv.1 = some s) → ∃ out, mapDocs g m = some out
  | [], _ => ⟨[], rfl⟩
  | kv :: rest, h => by
    obtain ⟨s, hs⟩ := h kv (by simp)
    obtain ⟨out, hout⟩ := mapDocs_total g rest (fun x hx => h x (by simp [hx]))
    refine ⟨{ kv.2 with term_category := s } :: out, ?_⟩
    unfold mapDocs
    rw [hs, hout]

/-- The completion loop yields one document per stored term. -/
theorem mapDocs_length (g : String → Option (Finset String)) :
    ∀ (m : List (String × Term)) (out : List Term),
      mapDocs g m = some out → out.length = m.length
  | [], out, h => by injection h with h2; simp [← h2]
  | kv :: rest, out, h => by
    unfold mapDocs at h
    cases hs : g kv.1 with
    | none => rw [hs] at h; cases h
    | some s =>
      rw [hs] at h
      cases hout : mapDocs g rest with
      | none => rw [hout] at h; cases h
      | some out2 =>
        rw [hout] at h
        injection h with h2
        simp [← h2, mapDocs_length g rest out2 hout]

/-- Each stored term appears in the completion-loop output with its computed
ancestor set. -/
theorem mapDocs_mem (g : String → Option (Finset String)) :
    ∀ (m : List (String × Term)) (out : List Term),
      mapDocs g m = some out →
      ∀ kv ∈ m, ∀ s, g kv.1 = some s →
        ({ kv.2 with term_category := s } : Term) ∈ out
  | [], _, _ => by
    intro kv hmem _ _
    simp at hmem
  | kv0 :: rest, out, h => by
    unfold mapDocs at h
    cases hs : g kv0.1 with
    | none => rw [hs] at h; cases h
    | some s0 =>
      rw [hs] at h
      cases hout : mapDocs g rest with
      | none => rw [hout] at h; cases h
      | some out2 =>
        rw [hout] at h
        injection h with h2
        intro kv hmem s hg
        rcases List.mem_cons.mp hmem with rfl | hmem2
        · have hss : s0 = s := Option.some.inj (hs.symm.trans hg)
          subst hss
          simp [← h2]
        · exact h2 ▸ List.mem_cons_of_mem _ (mapDocs_mem g rest out2 hout kv hmem2 s hg)

/-- Inversion of the completion loop: success means the closure computation
succeeded on every stored term. -/
theorem mapDocs_all (g : String → Option (Finset String)) :
    ∀ (m : List (String × Term)) (out : List Term),
      mapDocs g m = some out → ∀ kv ∈ m, ∃ s, g kv.1 = some s
  | [], _, _ => by
    intro kv hmem
    simp at hmem
  | kv0 :: rest, out, h => by
    unfold mapDocs at h
    cases hs : g kv0.1 with
    | none => rw [hs] at h; cases h
    | some s0 =>
      rw [hs] at h
      cases hout : mapDocs g rest with
      | none => rw [hout] at h; cases h
      | some out2 =>
        intro kv hmem
        rcases List.mem_cons.mp hmem with rfl | hmem2
        · exact ⟨s0, hs⟩
        · exact mapDocs_all g rest out2 hout kv hmem2

/-- The key of a stored binding always resolves. -/
theorem dictLookup_isSome_of_mem (m : List (String × Term)) (kv : String × Term)
    (hkv : kv ∈ m) : (dictLookup m kv.1).isSome := by
  unfold dictLookup
  cases hf : m.find? (fun e => e.1 == kv.1) with
  | none =>
    have := List.find?_eq_none.mp hf kv hkv
    simp at this
  | some e => rfl

/-- Every member of a list of naturals is bounded by the folded maximum. -/
theorem le_foldr_max : ∀ (l : List Nat) (x : Nat), x ∈ l → x ≤ l.foldr max 0
  | a :: rest, x, h => by
    rcases List.mem_cons.mp h with rfl | h2
    · exact Nat.le_max_left _ _
    · exact Nat.le_trans (le_foldr_max rest x h2) (Nat.le_max_right a _)

/-- Claim C1 (amended): on a term graph admitting a rank function along its
is_a edges (acyclicity) in which every referenced parent resolves, the
depth-first traversal of OBOParser.documents terminates with enough fuel and
yields an ancestor closure for every stored (non-obsolete) term. On a cyclic
graph the recursion never terminates, because the visited set is grown but
never consulted before recursing (see the counterexample). -/
theorem claim_C1 (stanzas : List Stanza) (rk : String → Nat)
    (hclosed : ∀ kv ∈ buildTerms stanzas, ∀ p ∈ kv.2.is_a,
      (dictLookup (buildTerms stanzas) p).isSome)
    (hrank : ∀ kv ∈ buildTerms stanzas, ∀ p ∈ kv.2.is_a, rk p < rk kv.1) :
    ∃ fuel out, documents stanzas fuel = some out ∧
      out.length = (buildTerms stanzas).length := by
  have hclosed2 : ∀ a t p, dictLookup (buildTerms stanzas) a = some t → p ∈ t.is_a →
      (dictLookup (buildTerms stanzas) p).isSome := fun a t p hl hp =>
    hclosed (a, t) (dictLookup_mem _ a t hl) p hp
  have hrank2 : ∀ a t p, dictLookup (buildTerms stanzas) a = some t → p ∈ t.is_a →
      rk p < rk a := fun a t p hl hp =>
    hrank (a, t) (dictLookup_mem _ a t hl) p hp
  have hall : ∀ kv ∈ buildTerms stanzas,
      ∃ s, get_ancestors (buildTerms stanzas)
        (((buildTerms stanzas).map (fun kv => rk kv.1)).foldr max 0 + 1) kv.1 ∅ = some s := by
    intro kv hkv
    refine get_ancestors_total _ rk hclosed2 hrank2 _ kv.1 ∅ ?_
      (dictLookup_isSome_of_mem _ kv hkv)
    exact Nat.lt_succ_of_le (le_foldr_max _ _ (List.mem_map_of_mem _ hkv))
  obtain ⟨out, hout⟩ := mapDocs_total
    (fun id => get_ancestors (buildTerms stanzas)
      (((buildTerms stanzas).map (fun kv => rk kv.1)).foldr max 0 + 1) id ∅)
    (buildTerms stanzas) hall
  exact ⟨_, out, hout, mapDocs_length _ _ out hout⟩

/-- Witness for claim C1 on the acyclic three-term chain. -/
theorem claim_C1_witness :
    ∃ fuel out, documents acyStanzas fuel = some out ∧
      out.length = (buildTerms acyStanzas).length :=
  claim_C1 acyStanzas acyRank (by decide) (by decide)

/-- On the cyclic two-term graph the traversal exhausts any fuel bound from
either start node: the Python recursion never terminates. -/
theorem cyc_get_ancestors_none : ∀ (fuel : Nat) (anc : Finset String),
    get_ancestors (buildTerms cycStanzas) fuel "A" anc = none ∧
    get_ancestors (buildTerms cycStanzas) fuel "B" anc = none := by
  intro fuel
  induction fuel with
  | zero => exact fun _ => ⟨rfl, rfl⟩
  | succ n ih =>
    have hA : dictLookup (buildTerms cycStanzas) "A" =
        some { id := "A", is_a := ["B"] } := by decide
    have hB : dictLookup (buildTerms cycStanzas) "B" =
        some { id := "B", is_a := ["A"] } := by decide
    intro anc
    constructor
    · show get_ancestors (buildTerms cycStanzas) (n + 1) "A" anc = none
      unfold get_ancestors
      rw [hA]
      unfold foldAncestors
      rw [(ih (insert "A" anc)).2]
    · show get_ancestors (buildTerms cycStanzas) (n + 1) "B" anc = none
      unfold get_ancestors
      rw [hB]
      unfold foldAncestors
      rw [(ih (insert "B" anc)).1]

/-- Counterexample for claim C1 as stated: on the cyclic two-term graph,
OBOParser.documents does not terminate — no fuel bound makes the closure
computation of the inner get_ancestors succeed, because the traversal revisits
the cycle forever. -/
theorem claim_C1_counterexample :
    ¬ ∃ fuel out, documents cycStanzas fuel = some out := by
  rintro ⟨fuel, out, hout⟩
  have hout2 : mapDocs (fun id => get_ancestors (buildTerms cycStanzas) fuel id ∅)
      (buildTerms cycStanzas) = some out := hout
  obtain ⟨s, hs⟩ := mapDocs_all
    (fun id => get_ancestors (buildTerms cycStanzas) fuel id ∅)
    (buildTerms cycStanzas) out hout2
    ("A", { id := "A", is_a := ["B"] }) (by decide)
  simp only at hs
  rw [(cyc_get_ancestors_none fuel ∅).1] at hs
  cases hs

/-- Claim C6 (confirmed): for every term stored from an acyclic ontology
(witnessed by a rank function) in which every referenced parent is present
(and only non-obsolete stanzas are stored), the computed ancestor closure
contains the term's own id, the term is emitted by documents with exactly that
closure as its term_category, and the closure of each declared parent is a
subset of the term's closure. -/
theorem claim_C6 (stanzas : List Stanza) (rk : String → Nat)
    (hclosed : ∀ kv ∈ buildTerms stanzas, ∀ p ∈ kv.2.is_a,
      (dictLookup (buildTerms stanzas) p).isSome)
    (hrank : ∀ kv ∈ buildTerms stanzas, ∀ p ∈ kv.2.is_a, rk p < rk kv.1)
    (tid : String) (t : Term)
    (hterm : dictLookup (buildTerms stanzas) tid = some t) :
    ∃ fuel out s, documents stanzas fuel = some out ∧
      get_ancestors (buildTerms stanzas) fuel tid ∅ = some s ∧
      ({ t with term_category := s } : Term) ∈ out ∧
      tid ∈ s ∧
      ∀ p ∈ t.is_a, ∃ sp,
        get_ancestors (buildTerms stanzas) fuel p ∅ = some sp ∧ sp ⊆ s := by
  have hclosed2 : ∀ a u p, dictLookup (buildTerms stanzas) a = some u → p ∈ u.is_a →
      (dictLookup (buildTerms stanzas) p).isSome := fun a u p hl hp =>
    hclosed (a, u) (dictLookup_mem _ a u hl) p hp
  have hrank2 : ∀ a u p, dictLookup (buildTerms stanzas) a = some u → p ∈ u.is_a →
      rk p < rk a := fun a u p hl hp =>
    hrank (a, u) (dictLookup_mem _ a u hl) p hp
  have hall : ∀ kv ∈ buildTerms stanzas,
      ∃ s, get_ancestors (buildTerms stanzas)
        (((buildTerms stanzas).map (fun kv => rk kv.1)).foldr max 0 + 1) kv.1 ∅ = some s := by
    intro kv hkv
    refine get_ancestors_total _ rk hclosed2 hrank2 _ kv.1 ∅ ?_
      (dictLookup_isSome_of_mem _ kv hkv)
    exact Nat.lt_succ_of_le (le_foldr_max _ _ (List.mem_map_of_mem _ hkv))
  obtain ⟨out, hout⟩ := mapDocs_total
    (fun id => get_ancestors (buildTerms stanzas)
      (((buildTerms stanzas).map (fun kv => rk kv.1)).foldr max 0 + 1) id ∅)
    (buildTerms stanzas) hall
  have hmem : (tid, t) ∈ buildTerms stanzas := dictLookup_mem _ tid t hterm
  obtain ⟨s, hs⟩ := hall (tid, t) hmem
  refine ⟨_, out, s, hout, hs, ?_, ?_, ?_⟩
  · exact mapDocs_mem _ (buildTerms stanzas) out hout (tid, t) hmem s hs
  · exact get_ancestors_self _ _ tid ∅ s hs
  · intro p hp
    have hplt : rk p <
        ((buildTerms stanzas).map (fun kv => rk kv.1)).foldr max 0 + 1 :=
      Nat.lt_trans (hrank2 tid t p hterm hp)
        (Nat.lt_succ_of_le (le_foldr_max _ _ (List.mem_map_of_mem _ hmem)))
    obtain ⟨sp, hsp⟩ := get_ancestors_total _ rk hclosed2 hrank2 _ p ∅ hplt
      (hclosed2 tid t p hterm hp)
    refine ⟨sp, hsp, ?_⟩
    intro x hx
    rcases get_ancestors_sound _ _ p ∅ sp x hsp hx with h2 | h2
    · cases Finset.not_mem_empty x h2
    · exact get_ancestors_complete _ _ tid ∅ s hs x
        (ReachesTerm.step tid p x t hterm hp h2)

/-- Witness for claim C6 on the acyclic three-term chain, at the deepest
term. -/
theorem claim_C6_witness :
    ∃ fuel out s, documents acyStanzas fuel = some out ∧
      get_ancestors (buildTerms acyStanzas) fuel "HP:3" ∅ = some s ∧
      ({ ({ id := "HP:3", is_a := ["HP:2"] } : Term) with term_category := s } : Term) ∈ out ∧
      "HP:3" ∈ s ∧
      ∀ p ∈ ({ id := "HP:3", is_a := ["HP:2"] } : Term).is_a, ∃ sp,
        get_ancestors (buildTerms acyStanzas) fuel p ∅ = some sp ∧ sp ⊆ s :=
  claim_C6 acyStanzas acyRank (by decide) (by decide) "HP:3"
    { id := "HP:3", is_a := ["HP:2"] } (by decide)
